import Mathlib

/-!
Verification of the incremental indicator engine, CVD state store,
strategy condition evaluator and signal edge detector of the
neo-trader-insight repository.

Prices, volumes and indicator values are embedded as rationals; the
Bollinger band computation maps into the reals for the square root.
Per-symbol mutable maps are embedded as association lists, and the
stateful CVD store and strategy tracker are embedded as explicit
state-passing functions.
-/

/-- JavaScript `array.slice(-n)`: the last `n` elements of a list
(the whole list when it is shorter than `n`). -/
def takeLast {α : Type} (n : ℕ) (l : List α) : List α :=
  l.drop (l.length - n)

/-- Consecutive differences of a list of prices:
`deltas [p0, p1, ..., pk] = [p1 - p0, ..., pk - p(k-1)]`. -/
def deltas : List ℚ → List ℚ
  | a :: b :: rest => (b - a) :: deltas (b :: rest)
  | _ => []

/-- RSI from `calculateRSI` in the indicator worker: neutral 50 with fewer
than `period + 1` samples; otherwise average gain / loss over the last
`period` price changes, 100 when the average loss is zero. -/
def calculateRSI (prices : List ℚ) (period : ℕ) : ℚ :=
  if prices.length < period + 1 then 50
  else
    let ds := deltas (takeLast (period + 1) prices)
    let gains := (ds.map (fun change => if 0 < change then change else 0)).sum
    let losses := (ds.map (fun change => if 0 < change then 0 else |change|)).sum
    let avgGain := gains / (period : ℚ)
    let avgLoss := losses / (period : ℚ)
    if avgLoss = 0 then 100
    else 100 - 100 / (1 + avgGain / avgLoss)

/-- EMA from `calculateEMA` in the indicator worker: seed with the first
sample, then fold `ema + (price - ema) * 2 / (period + 1)` over the rest;
0 on empty input. -/
def calculateEMA (prices : List ℚ) (period : ℕ) : ℚ :=
  match prices with
  | [] => 0
  | p :: rest =>
    rest.foldl (fun ema price => (price - ema) * (2 / ((period : ℚ) + 1)) + ema) p

/-- Result record of `calculateMACD` (fields in source order). -/
structure MACDResult where
  macd : ℚ
  signal : ℚ
  line : ℚ
  deriving DecidableEq, Repr

/-- MACD from `calculateMACD` in the indicator worker: all-zero with fewer
than 26 samples, else line = EMA12 - EMA26, signal = 0.8 * line,
macd = line - signal. -/
def calculateMACD (prices : List ℚ) : MACDResult :=
  if prices.length < 26 then ⟨0, 0, 0⟩
  else
    let ema12 := calculateEMA prices 12
    let ema26 := calculateEMA prices 26
    let macdLine := ema12 - ema26
    let signal := macdLine * (8 / 10)
    let macd := macdLine - signal
    ⟨macd, signal, macdLine⟩

/-- Result record of `calculateBollingerBands` (fields in source order). -/
structure BollingerBands where
  upper : ℝ
  lower : ℝ
  middle : ℝ

/-- Bollinger bands from `calculateBollingerBands` in the indicator worker:
all three bands collapse to the most recent price with fewer than `period`
samples; otherwise mean and population standard deviation of the last
`period` prices, with bands at two standard deviations. -/
noncomputable def calculateBollingerBands (prices : List ℚ) (period : ℕ) : BollingerBands :=
  if prices.length < period then
    let currentPrice : ℚ := prices.getLastD 0
    ⟨(currentPrice : ℝ), (currentPrice : ℝ), (currentPrice : ℝ)⟩
  else
    let recentPrices := takeLast period prices
    let middle : ℚ := recentPrices.sum / (period : ℚ)
    let variance : ℚ := (recentPrices.map (fun p => (p - middle) ^ 2)).sum / (period : ℚ)
    let stdDev : ℝ := Real.sqrt (variance : ℝ)
    let upper : ℝ := (middle : ℝ) + stdDev * 2
    let lower : ℝ := (middle : ℝ) - stdDev * 2
    ⟨upper, lower, (middle : ℝ)⟩

/-- One CVD delta step of the indicator worker: add the volume on an
up-tick, subtract it on a down-tick, leave the running value unchanged on
an equal price.  The tick `t` is a (price, volume) pair and `prev` the
previous price. -/
def cvdStep (run prev : ℚ) (t : ℚ × ℚ) : ℚ :=
  if prev < t.1 then run + t.2
  else if t.1 < prev then run - t.2
  else run

/-- The back-fill loop of `updateCVD`: walk the remaining (price, volume)
pairs, accumulating the running CVD starting from value `run` and previous
price `prev`, recording the running value after every tick. -/
def cvdFrom (run prev : ℚ) : List (ℚ × ℚ) → List ℚ
  | [] => []
  | t :: rest => cvdStep run prev t :: cvdFrom (cvdStep run prev t) t.1 rest

/-- Full CVD series of a tick list: the first tick only anchors the
previous price (running value 0), every later tick contributes one point. -/
def cvdSeries : List (ℚ × ℚ) → List ℚ
  | [] => []
  | t :: rest => cvdFrom 0 t.1 rest

/-- The worker's module-level `cvdHistory` map, embedded as an association
list from symbol to the stored per-symbol CVD series. -/
abbrev CvdHistory : Type := List (String × List ℚ)

/-- `cvdHistory.get(symbol) || []`. -/
def histGet (hist : CvdHistory) (symbol : String) : List ℚ :=
  (List.lookup symbol hist).getD []

/-- `cvdHistory.set(symbol, values)`: replace the entry when present,
otherwise add one. -/
def histSet (hist : CvdHistory) (symbol : String) (values : List ℚ) : CvdHistory :=
  if (List.lookup symbol hist).isSome then
    hist.map (fun e => if e.1 = symbol then (symbol, values) else e)
  else hist ++ [(symbol, values)]

/-- `updateCVD` from the indicator worker: with fewer than two price or
volume samples, return 0 without touching the map; on the first call for a
symbol, back-fill the whole series; afterwards append exactly one point
from the latest two prices and the latest volume; finally trim the series
to the most recent 100 points and store it. -/
def updateCVD (hist : CvdHistory) (symbol : String) (priceData volumeData : List ℚ) :
    CvdHistory × ℚ :=
  if priceData.length < 2 ∨ volumeData.length < 2 then (hist, 0)
  else
    let cvdValues := histGet hist symbol
    let vals :=
      if cvdValues.isEmpty then
        cvdSeries (priceData.zip volumeData)
      else
        let prevPrice := priceData.getD (priceData.length - 2) 0
        let currentPrice := priceData.getD (priceData.length - 1) 0
        let volume := volumeData.getD (volumeData.length - 1) 0
        let lastCVD := cvdValues.getLastD 0
        let newCVD :=
          if prevPrice < currentPrice then lastCVD + volume
          else if currentPrice < prevPrice then lastCVD - volume
          else lastCVD
        cvdValues ++ [newCVD]
    let trimmed := if 100 < vals.length then vals.drop (vals.length - 100) else vals
    (histSet hist symbol trimmed, trimmed.getLastD 0)

/-- Feed the first `n` ticks of a (price, volume) stream to the CVD store
one tick at a time: the call for tick `k` passes the first `k` prices and
the first `k` volumes, exactly as the worker sees a growing history. -/
def feedTicks (hist : CvdHistory) (symbol : String) (ps vs : List ℚ) : ℕ → CvdHistory
  | 0 => hist
  | k + 1 => (updateCVD (feedTicks hist symbol ps vs k) symbol
      (ps.take (k + 1)) (vs.take (k + 1))).1

/-- `calculateCVDSlope` from the indicator worker: ordinary least-squares
slope over the last `lookbackPeriod + 1` stored CVD points (x = index),
0 with insufficient points. -/
def calculateCVDSlope (hist : CvdHistory) (symbol : String) (lookbackPeriod : ℕ) : ℚ :=
  let cvdValues := histGet hist symbol
  if cvdValues.length < lookbackPeriod + 1 then 0
  else
    let recentCVD := takeLast (lookbackPeriod + 1) cvdValues
    if recentCVD.length < 2 then 0
    else
      let n : ℚ := (recentCVD.length : ℚ)
      let sumX := ((List.range recentCVD.length).map (fun i => (i : ℚ))).sum
      let sumY := ((List.range recentCVD.length).map (fun i => recentCVD.getD i 0)).sum
      let sumXY := ((List.range recentCVD.length).map
        (fun (i : ℕ) => (i : ℚ) * recentCVD.getD i 0)).sum
      let sumX2 := ((List.range recentCVD.length).map (fun i => (i : ℚ) * (i : ℚ))).sum
      (n * sumXY - sumX * sumY) / (n * sumX2 - sumX * sumX)

/-- The three trend classifications of `calculateCVDTrend`. -/
inductive CVDTrend where
  | bullish
  | bearish
  | neutral
  deriving DecidableEq, Repr

/-- `calculateCVDTrend` from the indicator worker: neutral with fewer than
`lookbackPeriod` stored points, else classify the relative change from the
first to the last of the last `lookbackPeriod` points, dividing by the
absolute first value with 1 substituted for 0. -/
def calculateCVDTrend (hist : CvdHistory) (symbol : String) (lookbackPeriod : ℕ) : CVDTrend :=
  let cvdValues := histGet hist symbol
  if cvdValues.length < lookbackPeriod then .neutral
  else
    let recentCVD := takeLast lookbackPeriod cvdValues
    let firstValue := recentCVD.getD 0 0
    let lastValue := recentCVD.getLastD 0
    let trendStrength := (lastValue - firstValue) / |if firstValue = 0 then 1 else firstValue|
    if 1 / 10 < trendStrength then .bullish
    else if trendStrength < -(1 / 10) then .bearish
    else .neutral

/-- Per-(symbol, strategy) state of the `StrategyTracker`: the previous
aggregate decision and the last condition vector.  Fresh entries are
initialised with `previousAllGreen := false`. -/
structure TrackerEntry where
  previousAllGreen : Bool
  currentConditions : List (String × Bool)

/-- `StrategyTracker.updateConditions` on one (symbol, strategy) entry,
returning the new entry together with whether a trigger event
(`logAllGreen`) fired: it fires exactly when every condition value is true
and the previous aggregate was not. -/
def updateConditions (st : TrackerEntry) (conditions : List (String × Bool)) :
    TrackerEntry × Bool :=
  let allGreen := (conditions.map Prod.snd).all (fun b => b)
  (⟨allGreen, conditions⟩, allGreen && !st.previousAllGreen)

/-- Run the tracker over a sequence of condition vectors, collecting the
trigger events in order. -/
def trackerRun (st : TrackerEntry) : List (List (String × Bool)) → List Bool
  | [] => []
  | conditions :: rest =>
    let r := updateConditions st conditions
    r.2 :: trackerRun r.1 rest

/-- Aggregate decision of the condition vector at position `j` of an input
sequence (conjunction of all condition values). -/
def aggAt (inputs : List (List (String × Bool))) (j : ℕ) : Bool :=
  ((inputs.getD j []).map Prod.snd).all (fun b => b)

/-- A six-evaluation input sequence whose aggregate decisions are
false, true, true, true, false, true. -/
def exampleInputs : List (List (String × Bool)) :=
  [[("c", false)], [("c", true)], [("c", true)],
   [("c", true)], [("c", false)], [("c", true)]]

/-- `StrategyConditionConfig` from the strategy conditions module. -/
structure StrategyConditionConfig where
  volumeMultiplier : ℚ
  rsiMin : ℚ
  rsiMax : ℚ
  useMA5 : Bool
  useMA8 : Bool
  useMA13 : Bool
  useMA20 : Bool
  useMA21 : Bool
  useMA34 : Bool
  useMA50 : Bool
  macdLineAboveSignal : Bool
  macdLineAboveZero : Bool
  bollingerMultiplier : ℚ
  useBollingerUpper : Bool
  useBollingerLower : Bool
  useBollingerMiddle : Bool
  cvdAboveZero : Bool
  cvdSlopePositive : Bool
  cvdLookbackCandles : ℕ
  takeProfitPercent : ℚ
  stopLossPercent : ℚ

/-- The numeric fields of an `IndicatorValues` snapshot that the strategy
evaluators read. -/
structure IndicatorValues where
  rsi : ℚ
  macd : MACDResult
  ma5 : ℚ
  ma8 : ℚ
  ma13 : ℚ
  ma20 : ℚ
  ma21 : ℚ
  ma34 : ℚ
  ma50 : ℚ
  bollingerUpper : ℚ
  bollingerLower : ℚ
  bollingerMiddle : ℚ
  volume : ℚ
  avgVolume : ℚ
  volumeSpike : Bool
  price : ℚ
  cvd : ℚ
  cvdTrend : CVDTrend
  cvdSlope : ℚ

/-- The named condition vector produced by an evaluation (same six fields
for the intraday and the scalping evaluator). -/
structure ConditionVector where
  bollingerBands : Bool
  macd : Bool
  rsi : Bool
  movingAverages : Bool
  volume : Bool
  cvd : Bool
  deriving DecidableEq, Repr

/-- The record returned by `checkIntradayConditions` /
`checkScalpingConditions`. -/
structure StrategyCheckResult where
  entryPrice : ℚ
  takeProfit : ℚ
  stopLoss : ℚ
  conditions : ConditionVector
  allConditionsMet : Bool
  signal : String

/-- `checkIntradayConditions` from the intraday strategy component:
each configurable check defaults to true when its flag is off; RSI and
volume are always evaluated; the aggregate decision is the conjunction of
all six condition values. -/
def checkIntradayConditions (config : StrategyConditionConfig)
    (indicators : IndicatorValues) (currentPrice : ℚ) : StrategyCheckResult :=
  let entryPrice := currentPrice
  let takeProfit := entryPrice * (1 + config.takeProfitPercent / 100)
  let stopLoss := entryPrice * (1 - config.stopLossPercent / 100)
  let bollingerCondition :=
    if config.useBollingerLower then
      decide (currentPrice ≤ indicators.bollingerLower * config.bollingerMultiplier)
    else true
  let macdCondition :=
    if config.macdLineAboveSignal then
      (decide (indicators.macd.signal < indicators.macd.line)) &&
        (if config.macdLineAboveZero then decide ((0 : ℚ) < indicators.macd.line) else true)
    else true
  let rsiCondition :=
    decide (config.rsiMin ≤ indicators.rsi) && decide (indicators.rsi ≤ config.rsiMax)
  let maCondition :=
    if config.useMA20 && config.useMA34 then
      decide (indicators.ma34 < currentPrice) && decide (indicators.ma34 < indicators.ma20)
    else true
  let volumeCondition :=
    decide (indicators.avgVolume * config.volumeMultiplier < indicators.volume)
  let cvdCondition :=
    if config.cvdSlopePositive then
      (decide ((0 : ℚ) < indicators.cvdSlope)) &&
        (if config.cvdAboveZero then decide ((0 : ℚ) < indicators.cvd) else true)
    else true
  let conditions : ConditionVector :=
    ⟨bollingerCondition, macdCondition, rsiCondition, maCondition,
      volumeCondition, cvdCondition⟩
  let allConditionsMet := conditions.bollingerBands && conditions.macd &&
    conditions.rsi && conditions.movingAverages && conditions.volume && conditions.cvd
  ⟨entryPrice, takeProfit, stopLoss, conditions, allConditionsMet,
    if allConditionsMet then "LONG" else "WAIT"⟩

/-- `checkScalpingConditions` from the scalping strategy component: same
shape as the intraday evaluator, with the moving-average check comparing
EMA8 against EMA21. -/
def checkScalpingConditions (config : StrategyConditionConfig)
    (indicators : IndicatorValues) (currentPrice : ℚ) : StrategyCheckResult :=
  let entryPrice := currentPrice
  let takeProfit := entryPrice * (1 + config.takeProfitPercent / 100)
  let stopLoss := entryPrice * (1 - config.stopLossPercent / 100)
  let rsiCondition :=
    decide (config.rsiMin ≤ indicators.rsi) && decide (indicators.rsi ≤ config.rsiMax)
  let maCondition :=
    if config.useMA8 && config.useMA21 then
      decide (indicators.ma21 < indicators.ma8)
    else true
  let bollingerCondition :=
    if config.useBollingerLower then
      decide (currentPrice ≤ indicators.bollingerLower * config.bollingerMultiplier)
    else true
  let macdCondition :=
    if config.macdLineAboveSignal then
      (decide (indicators.macd.signal < indicators.macd.line)) &&
        (if config.macdLineAboveZero then decide ((0 : ℚ) < indicators.macd.line) else true)
    else true
  let volumeCondition :=
    decide (indicators.avgVolume * config.volumeMultiplier < indicators.volume)
  let cvdCondition :=
    if config.cvdSlopePositive then
      (decide ((0 : ℚ) < indicators.cvdSlope)) &&
        (if config.cvdAboveZero then decide ((0 : ℚ) < indicators.cvd) else true)
    else true
  let conditions : ConditionVector :=
    ⟨bollingerCondition, macdCondition, rsiCondition, maCondition,
      volumeCondition, cvdCondition⟩
  let allConditionsMet := conditions.rsi && conditions.movingAverages &&
    conditions.bollingerBands && conditions.macd && conditions.volume && conditions.cvd
  ⟨entryPrice, takeProfit, stopLoss, conditions, allConditionsMet,
    if allConditionsMet then "LONG" else "WAIT"⟩

example : calculateRSI [1, 2, 3] 14 = 50 := by norm_num [calculateRSI]
example : calculateRSI [1,2,3,4,5,6,7,8,9,10,11,12,13,14,15] 14 = 100 := by
  norm_num [calculateRSI, takeLast, deltas]
example : calculateMACD [1, 2] = ⟨0, 0, 0⟩ := by norm_num [calculateMACD]
example : calculateEMA [4] 12 = 4 := by norm_num [calculateEMA]
example : deltas [1, 3, 2] = [2, -1] := by norm_num [deltas]

/-- C4: with fewer than 26 samples MACD is all-zero; with at least 26
samples the MACD line is EMA(12) minus EMA(26) over the full sequence, the
signal line is 0.8 times the MACD line, and the macd value is line minus
signal. -/
theorem macd_spec (prices : List ℚ) :
    (prices.length < 26 → calculateMACD prices = ⟨0, 0, 0⟩) ∧
    (26 ≤ prices.length →
      (calculateMACD prices).line = calculateEMA prices 12 - calculateEMA prices 26 ∧
      (calculateMACD prices).signal = (8 / 10) * (calculateMACD prices).line ∧
      (calculateMACD prices).macd =
        (calculateMACD prices).line - (calculateMACD prices).signal) := by
  constructor
  · intro h
    simp [calculateMACD, h]
  · intro h
    rw [calculateMACD, if_neg (by omega)]
    refine ⟨rfl, ?_, rfl⟩
    simp [mul_comm]

/-- Witness for `macd_spec` at a five-element and a 26-element price list. -/
theorem macd_spec_witness :
    calculateMACD [1, 2, 3, 4, 5] = ⟨0, 0, 0⟩ ∧
    (calculateMACD (List.replicate 26 (1 : ℚ))).line =
      calculateEMA (List.replicate 26 (1 : ℚ)) 12 -
        calculateEMA (List.replicate 26 (1 : ℚ)) 26 :=
  ⟨(macd_spec [1, 2, 3, 4, 5]).1 (by decide),
   ((macd_spec (List.replicate 26 (1 : ℚ))).2 (by decide)).1⟩

/-- C5: with fewer than 15 samples RSI is exactly 50; with at least 15
samples and no negative change among the last 14 deltas RSI is exactly
100; otherwise RSI is 100 - 100 / (1 + avgGain / avgLoss) over the last 14
deltas. -/
theorem rsi_spec (prices : List ℚ) :
    (prices.length < 15 → calculateRSI prices 14 = 50) ∧
    (15 ≤ prices.length → (∀ d ∈ deltas (takeLast 15 prices), 0 ≤ d) →
      calculateRSI prices 14 = 100) ∧
    (15 ≤ prices.length → (∃ d ∈ deltas (takeLast 15 prices), d < 0) →
      calculateRSI prices 14 =
        100 - 100 /
          (1 + (((deltas (takeLast 15 prices)).map
              (fun change => if 0 < change then change else 0)).sum / 14) /
            (((deltas (takeLast 15 prices)).map
              (fun change => if 0 < change then 0 else |change|)).sum / 14))) := by
  refine ⟨fun h => ?_, fun h hnonneg => ?_, fun h hneg => ?_⟩
  · simp [calculateRSI, h]
  · have hzero : ((deltas (takeLast 15 prices)).map
        (fun change => if 0 < change then 0 else |change|)).sum = 0 := by
      apply List.sum_eq_zero
      intro x hx
      obtain ⟨d, hd, rfl⟩ := List.mem_map.1 hx
      rcases lt_or_eq_of_le (hnonneg d hd) with hlt | heq
      · simp [hlt]
      · simp [← heq]
    rw [calculateRSI, if_neg (by omega)]
    simp only [hzero]
    norm_num
  · obtain ⟨d, hd, hdneg⟩ := hneg
    have hpos : 0 < ((deltas (takeLast 15 prices)).map
        (fun change => if 0 < change then 0 else |change|)).sum := by
      have hmem : |d| ∈ (deltas (takeLast 15 prices)).map
          (fun change => if 0 < change then 0 else |change|) := by
        refine List.mem_map.2 ⟨d, hd, ?_⟩
        rw [if_neg (by linarith)]
      have hle : |d| ≤ ((deltas (takeLast 15 prices)).map
          (fun change => if 0 < change then 0 else |change|)).sum := by
        apply List.single_le_sum _ _ hmem
        intro x hx
        obtain ⟨c, hc, rfl⟩ := List.mem_map.1 hx
        split
        · exact le_refl 0
        · exact abs_nonneg c
      have habs : (0 : ℚ) < |d| := abs_pos.2 (by linarith)
      linarith
    have hne : ((deltas (takeLast 15 prices)).map
        (fun change => if 0 < change then 0 else |change|)).sum / ((14 : ℕ) : ℚ) ≠ 0 :=
      ne_of_gt (div_pos hpos (by norm_num))
    rw [calculateRSI, if_neg (by omega)]
    simp only [if_neg hne]
    norm_num

/-- Witness for `rsi_spec` at a short list, a flat 15-sample list, and a
15-sample list with one down move. -/
theorem rsi_spec_witness :
    calculateRSI [1, 2, 3] 14 = 50 ∧
    calculateRSI (List.replicate 15 (1 : ℚ)) 14 = 100 ∧
    calculateRSI [2, 1, 1, 1, 1, 1, 1, 1, 1, 1, 1, 1, 1, 1, 1] 14 =
      100 - 100 /
        (1 + (((deltas (takeLast 15
              ([2, 1, 1, 1, 1, 1, 1, 1, 1, 1, 1, 1, 1, 1, 1] : List ℚ))).map
            (fun change => if 0 < change then change else 0)).sum / 14) /
          (((deltas (takeLast 15
              ([2, 1, 1, 1, 1, 1, 1, 1, 1, 1, 1, 1, 1, 1, 1] : List ℚ))).map
            (fun change => if 0 < change then 0 else |change|)).sum / 14)) :=
  ⟨(rsi_spec [1, 2, 3]).1 (by norm_num),
   (rsi_spec (List.replicate 15 (1 : ℚ))).2.1 (by norm_num)
     (by norm_num [takeLast, deltas, List.replicate]),
   (rsi_spec [2, 1, 1, 1, 1, 1, 1, 1, 1, 1, 1, 1, 1, 1, 1]).2.2 (by norm_num)
     ⟨-1, by norm_num [takeLast, deltas], by norm_num⟩⟩

/-- C7: with fewer than 20 samples all three Bollinger bands collapse to
the most recent price; with at least 20 samples the middle band is the
arithmetic mean of the last 20 prices and the upper / lower bands sit two
population standard deviations above / below it. -/
theorem bollinger_spec (prices : List ℚ) :
    (prices.length < 20 →
      calculateBollingerBands prices 20 =
        ⟨((prices.getLastD 0 : ℚ) : ℝ), ((prices.getLastD 0 : ℚ) : ℝ),
          ((prices.getLastD 0 : ℚ) : ℝ)⟩) ∧
    (20 ≤ prices.length →
      (calculateBollingerBands prices 20).middle =
        (((takeLast 20 prices).sum / 20 : ℚ) : ℝ) ∧
      (calculateBollingerBands prices 20).upper =
        (calculateBollingerBands prices 20).middle +
          2 * Real.sqrt ((((takeLast 20 prices).map
            (fun p => (p - (takeLast 20 prices).sum / 20) ^ 2)).sum / 20 : ℚ) : ℝ) ∧
      (calculateBollingerBands prices 20).lower =
        (calculateBollingerBands prices 20).middle -
          2 * Real.sqrt ((((takeLast 20 prices).map
            (fun p => (p - (takeLast 20 prices).sum / 20) ^ 2)).sum / 20 : ℚ) : ℝ)) := by
  constructor
  · intro h
    simp [calculateBollingerBands, h]
  · intro h
    rw [calculateBollingerBands, if_neg (by omega)]
    have hc : ((20 : ℕ) : ℚ) = 20 := by norm_num
    refine ⟨by norm_num, ?_, ?_⟩
    · show (_ : ℝ) + Real.sqrt _ * 2 = _
      rw [hc]
      ring
    · show (_ : ℝ) - Real.sqrt _ * 2 = _
      rw [hc]
      ring

/-- Witness for `bollinger_spec` at a one-element and a 20-element price
list. -/
theorem bollinger_spec_witness :
    calculateBollingerBands [(3 : ℚ)] 20 =
      ⟨((([(3 : ℚ)] : List ℚ).getLastD 0 : ℚ) : ℝ),
        ((([(3 : ℚ)] : List ℚ).getLastD 0 : ℚ) : ℝ),
        ((([(3 : ℚ)] : List ℚ).getLastD 0 : ℚ) : ℝ)⟩ ∧
    (calculateBollingerBands (List.replicate 20 (1 : ℚ)) 20).middle =
      (((takeLast 20 (List.replicate 20 (1 : ℚ))).sum / 20 : ℚ) : ℝ) :=
  ⟨(bollinger_spec [(3 : ℚ)]).1 (by norm_num),
   ((bollinger_spec (List.replicate 20 (1 : ℚ))).2 (by norm_num)).1⟩

/-- C10: a CVD update with fewer than two price samples or fewer than two
volume samples returns 0 and leaves the whole CVD map untouched: no point
is appended, nothing is evicted and no map entry is created. -/
theorem cvd_short_input_noop (hist : CvdHistory) (symbol : String) (ps vs : List ℚ)
    (h : ps.length < 2 ∨ vs.length < 2) :
    updateCVD hist symbol ps vs = (hist, 0) := by
  rw [updateCVD, if_pos h]

/-- Witness for `cvd_short_input_noop`: one price sample with two volume
samples on an empty map. -/
theorem cvd_short_input_noop_witness :
    updateCVD [] "BTCUSDT" [5] [1, 2] = ([], 0) :=
  cvd_short_input_noop [] "BTCUSDT" [5] [1, 2] (by norm_num)

/-- C8: with fewer than 10 stored points the CVD trend is neutral; with at
least 10 points it is bullish exactly when the relative change from the
first to the last of the last 10 values exceeds one tenth, bearish exactly
when it is below minus one tenth, and neutral otherwise, the denominator
being the absolute first value with 1 substituted for 0. -/
theorem cvd_trend_spec (hist : CvdHistory) (symbol : String) :
    ((histGet hist symbol).length < 10 →
      calculateCVDTrend hist symbol 10 = CVDTrend.neutral) ∧
    (10 ≤ (histGet hist symbol).length →
      (calculateCVDTrend hist symbol 10 = CVDTrend.bullish ↔
        1 / 10 <
          ((takeLast 10 (histGet hist symbol)).getLastD 0 -
              (takeLast 10 (histGet hist symbol)).getD 0 0) /
            (if (takeLast 10 (histGet hist symbol)).getD 0 0 = 0 then 1
              else |(takeLast 10 (histGet hist symbol)).getD 0 0|)) ∧
      (calculateCVDTrend hist symbol 10 = CVDTrend.bearish ↔
        ((takeLast 10 (histGet hist symbol)).getLastD 0 -
            (takeLast 10 (histGet hist symbol)).getD 0 0) /
          (if (takeLast 10 (histGet hist symbol)).getD 0 0 = 0 then 1
            else |(takeLast 10 (histGet hist symbol)).getD 0 0|) < -(1 / 10)) ∧
      (calculateCVDTrend hist symbol 10 = CVDTrend.neutral ↔
        (¬ 1 / 10 <
          ((takeLast 10 (histGet hist symbol)).getLastD 0 -
              (takeLast 10 (histGet hist symbol)).getD 0 0) /
            (if (takeLast 10 (histGet hist symbol)).getD 0 0 = 0 then 1
              else |(takeLast 10 (histGet hist symbol)).getD 0 0|)) ∧
        ¬ ((takeLast 10 (histGet hist symbol)).getLastD 0 -
            (takeLast 10 (histGet hist symbol)).getD 0 0) /
          (if (takeLast 10 (histGet hist symbol)).getD 0 0 = 0 then 1
            else |(takeLast 10 (histGet hist symbol)).getD 0 0|) < -(1 / 10))) := by
  constructor
  · intro h
    simp only [calculateCVDTrend]
    rw [if_pos h]
  · intro h
    have hlen : ¬ (histGet hist symbol).length < 10 := by omega
    have hden : |if (takeLast 10 (histGet hist symbol)).getD 0 0 = 0 then (1 : ℚ)
        else (takeLast 10 (histGet hist symbol)).getD 0 0| =
        if (takeLast 10 (histGet hist symbol)).getD 0 0 = 0 then 1
        else |(takeLast 10 (histGet hist symbol)).getD 0 0| := by
      split
      · simp
      · rfl
    simp only [calculateCVDTrend, if_neg hlen, hden]
    generalize ((takeLast 10 (histGet hist symbol)).getLastD 0 -
        (takeLast 10 (histGet hist symbol)).getD 0 0) /
      (if (takeLast 10 (histGet hist symbol)).getD 0 0 = 0 then 1
        else |(takeLast 10 (histGet hist symbol)).getD 0 0|) = t
    split_ifs with h1 h2
    · exact ⟨⟨fun _ => h1, fun _ => rfl⟩,
        ⟨fun hc => by simp at hc, fun hc => (by linarith : False).elim⟩,
        ⟨fun hc => by simp at hc, fun hc => (hc.1 h1).elim⟩⟩
    · exact ⟨⟨fun hc => by simp at hc, fun hc => absurd hc h1⟩,
        ⟨fun _ => h2, fun _ => rfl⟩,
        ⟨fun hc => by simp at hc, fun hc => absurd h2 hc.2⟩⟩
    · exact ⟨⟨fun hc => by simp at hc, fun hc => absurd hc h1⟩,
        ⟨fun hc => by simp at hc, fun hc => absurd hc h2⟩,
        ⟨fun _ => ⟨h1, h2⟩, fun _ => rfl⟩⟩

/-- Witness for `cvd_trend_spec` at a three-point series and a ten-point
series. -/
theorem cvd_trend_spec_witness :
    calculateCVDTrend [("s", [1, 2, 3])] "s" 10 = CVDTrend.neutral ∧
    (calculateCVDTrend [("s", [0, 0, 0, 0, 0, 0, 0, 0, 0, 10])] "s" 10 = CVDTrend.bullish ↔
      1 / 10 <
        ((takeLast 10 (histGet [("s", [0, 0, 0, 0, 0, 0, 0, 0, 0, 10])] "s")).getLastD 0 -
            (takeLast 10 (histGet [("s", [0, 0, 0, 0, 0, 0, 0, 0, 0, 10])] "s")).getD 0 0) /
          (if (takeLast 10 (histGet [("s", [0, 0, 0, 0, 0, 0, 0, 0, 0, 10])] "s")).getD 0 0 = 0
            then 1
            else |(takeLast 10 (histGet [("s", [0, 0, 0, 0, 0, 0, 0, 0, 0, 10])] "s")).getD 0 0|)) :=
  ⟨(cvd_trend_spec [("s", [1, 2, 3])] "s").1 (by simp [histGet, List.lookup]),
   ((cvd_trend_spec [("s", [0, 0, 0, 0, 0, 0, 0, 0, 0, 10])] "s").2
     (by simp [histGet, List.lookup])).1⟩

/-- C3: when all optional condition flags are off, both evaluators mark
every condition true except RSI and volume, and the aggregate decision is
exactly the conjunction of the RSI band check and the volume check. -/
theorem disabled_flags_spec (config : StrategyConditionConfig)
    (indicators : IndicatorValues) (currentPrice : ℚ)
    (hb : config.useBollingerLower = false)
    (hm : config.macdLineAboveSignal = false)
    (h20 : config.useMA20 = false) (h34 : config.useMA34 = false)
    (h8 : config.useMA8 = false) (h21 : config.useMA21 = false)
    (hc : config.cvdSlopePositive = false) :
    ((checkIntradayConditions config indicators currentPrice).conditions.bollingerBands = true ∧
     (checkIntradayConditions config indicators currentPrice).conditions.macd = true ∧
     (checkIntradayConditions config indicators currentPrice).conditions.movingAverages = true ∧
     (checkIntradayConditions config indicators currentPrice).conditions.cvd = true ∧
     (checkIntradayConditions config indicators currentPrice).allConditionsMet =
       (decide (config.rsiMin ≤ indicators.rsi) && decide (indicators.rsi ≤ config.rsiMax) &&
         decide (indicators.avgVolume * config.volumeMultiplier < indicators.volume))) ∧
    ((checkScalpingConditions config indicators currentPrice).conditions.bollingerBands = true ∧
     (checkScalpingConditions config indicators currentPrice).conditions.macd = true ∧
     (checkScalpingConditions config indicators currentPrice).conditions.movingAverages = true ∧
     (checkScalpingConditions config indicators currentPrice).conditions.cvd = true ∧
     (checkScalpingConditions config indicators currentPrice).allConditionsMet =
       (decide (config.rsiMin ≤ indicators.rsi) && decide (indicators.rsi ≤ config.rsiMax) &&
         decide (indicators.avgVolume * config.volumeMultiplier < indicators.volume))) := by
  constructor
  · refine ⟨?_, ?_, ?_, ?_, ?_⟩ <;>
      simp [checkIntradayConditions, hb, hm, h20, h34, h8, h21, hc, Bool.and_assoc]
  · refine ⟨?_, ?_, ?_, ?_, ?_⟩ <;>
      simp [checkScalpingConditions, hb, hm, h20, h34, h8, h21, hc, Bool.and_assoc,
        Bool.and_comm, Bool.and_left_comm]

/-- A concrete strategy configuration with every optional flag off. -/
def flagsOffConfig : StrategyConditionConfig :=
  ⟨3 / 2, 0, 40, false, false, false, false, false, false, false, false, false,
    101 / 100, false, false, false, false, false, 5, 1 / 2, 3 / 10⟩

/-- A concrete indicator snapshot. -/
def exampleIndicators : IndicatorValues :=
  ⟨30, ⟨0, 0, 0⟩, 1, 1, 1, 1, 1, 1, 1, 2, 1, 3 / 2, 500, 100, false, 10, 50,
    CVDTrend.neutral, 2⟩

/-- Witness for `disabled_flags_spec` at the all-flags-off configuration. -/
theorem disabled_flags_spec_witness :
    (checkIntradayConditions flagsOffConfig exampleIndicators 10).allConditionsMet =
      (decide (flagsOffConfig.rsiMin ≤ exampleIndicators.rsi) &&
        decide (exampleIndicators.rsi ≤ flagsOffConfig.rsiMax) &&
        decide (exampleIndicators.avgVolume * flagsOffConfig.volumeMultiplier <
          exampleIndicators.volume)) ∧
    (checkScalpingConditions flagsOffConfig exampleIndicators 10).conditions.macd = true :=
  ⟨((disabled_flags_spec flagsOffConfig exampleIndicators 10
      rfl rfl rfl rfl rfl rfl rfl).1).2.2.2.2,
   ((disabled_flags_spec flagsOffConfig exampleIndicators 10
      rfl rfl rfl rfl rfl rfl rfl).2).2.1⟩

/-- Element-wise characterisation of a tracker run from an arbitrary
previous aggregate: the event at position `i` fires exactly when the
aggregate at `i` holds and the aggregate just before it (the carried-in
previous flag for `i = 0`) does not. -/
theorem trackerRun_getD (inputs : List (List (String × Bool))) :
    ∀ (prev : Bool) (cc : List (String × Bool)) (i : ℕ), i < inputs.length →
      (trackerRun ⟨prev, cc⟩ inputs).getD i false =
        (aggAt inputs i && !(if i = 0 then prev else aggAt inputs (i - 1))) := by
  induction inputs with
  | nil =>
    intro prev cc i hi
    simp at hi
  | cons c rest ih =>
    intro prev cc i hi
    match i with
    | 0 =>
      simp [trackerRun, updateConditions, aggAt]
    | Nat.succ j =>
      have hj : j < rest.length := by simpa using hi
      have hstep : trackerRun ⟨prev, cc⟩ (c :: rest) =
          ((c.map Prod.snd).all (fun b => b) && !prev) ::
            trackerRun ⟨(c.map Prod.snd).all (fun b => b), c⟩ rest := rfl
      rw [hstep]
      rw [List.getD_cons_succ]
      rw [ih ((c.map Prod.snd).all (fun b => b)) c j hj]
      match j with
      | 0 =>
        simp [aggAt]
      | Nat.succ k =>
        simp [aggAt]

/-- C1: starting from a fresh entry (previous aggregate false), a tracker
run fires a trigger at exactly the positions where the aggregate decision
rises from false to true; on the six-step example whose aggregates are
false, true, true, true, false, true it fires exactly twice, at positions
1 and 5. -/
theorem edge_trigger_spec :
    (∀ (inputs : List (List (String × Bool))) (i : ℕ), i < inputs.length →
      ((trackerRun ⟨false, []⟩ inputs).getD i false = true ↔
        (aggAt inputs i = true ∧ (i = 0 ∨ aggAt inputs (i - 1) = false)))) ∧
    exampleInputs.map (fun conditions => (conditions.map Prod.snd).all (fun b => b)) =
      [false, true, true, true, false, true] ∧
    trackerRun ⟨false, []⟩ exampleInputs = [false, true, false, false, false, true] := by
  refine ⟨?_, by decide, by decide⟩
  intro inputs i hi
  rw [trackerRun_getD inputs false [] i hi]
  match i with
  | 0 =>
    cases h : aggAt inputs 0 <;> simp [h]
  | Nat.succ j =>
    cases h1 : aggAt inputs (j + 1) <;> cases h2 : aggAt inputs j <;> simp [h1, h2]

/-- Witness for `edge_trigger_spec` at position 1 of the example input
sequence. -/
theorem edge_trigger_spec_witness :
    (trackerRun ⟨false, []⟩ exampleInputs).getD 1 false = true ↔
      (aggAt exampleInputs 1 = true ∧ (1 = 0 ∨ aggAt exampleInputs 0 = false)) :=
  edge_trigger_spec.1 exampleInputs 1 (by decide)

theorem length_cvdFrom (ts : List (ℚ × ℚ)) : ∀ run prev, (cvdFrom run prev ts).length = ts.length := by
  induction ts with
  | nil => intro run prev; rfl
  | cons t rest ih =>
    intro run prev
    simp [cvdFrom, ih]

theorem length_cvdSeries (ts : List (ℚ × ℚ)) : (cvdSeries ts).length = ts.length - 1 := by
  match ts with
  | [] => rfl
  | t :: rest => simp [cvdSeries, length_cvdFrom]

theorem cvdFrom_append (ts : List (ℚ × ℚ)) :
    ∀ (run prev : ℚ) (t : ℚ × ℚ),
      cvdFrom run prev (ts ++ [t]) =
        cvdFrom run prev ts ++
          [cvdStep ((cvdFrom run prev ts).getLastD run)
            ((ts.map Prod.fst).getLastD prev) t] := by
  induction ts with
  | nil =>
    intro run prev t
    simp [cvdFrom]
  | cons s rest ih =>
    intro run prev t
    simp only [List.cons_append, cvdFrom, List.append_eq]
    rw [ih (cvdStep run prev s) s.1 t]
    rw [List.getLastD_cons, List.map_cons, List.getLastD_cons]

theorem cvdSeries_concat (ts : List (ℚ × ℚ)) (t : ℚ × ℚ) (h : ts ≠ []) :
    cvdSeries (ts ++ [t]) =
      cvdSeries ts ++
        [cvdStep ((cvdSeries ts).getLastD 0) ((ts.map Prod.fst).getLastD 0) t] := by
  match ts, h with
  | t0 :: rest, _ =>
    simp only [List.cons_append, cvdSeries]
    rw [cvdFrom_append]
    rw [List.map_cons, List.getLastD_cons]

theorem takeLast_eq_self {α : Type} {n : ℕ} {l : List α} (h : l.length ≤ n) :
    takeLast n l = l := by
  rw [takeLast, Nat.sub_eq_zero_of_le h, List.drop_zero]

theorem length_takeLast {α : Type} (n : ℕ) (l : List α) :
    (takeLast n l).length = min n l.length := by
  rw [takeLast, List.length_drop]
  rcases Nat.le_total n l.length with h | h
  · rw [Nat.min_eq_left h]
    omega
  · rw [Nat.min_eq_right h]
    omega

theorem takeLast_ne_nil {α : Type} {n : ℕ} {l : List α} (hn : 0 < n) (hl : l ≠ []) :
    takeLast n l ≠ [] := by
  have h1 : 0 < l.length := List.length_pos.2 hl
  intro hc
  have h2 := congrArg List.length hc
  rw [length_takeLast] at h2
  simp only [List.length_nil] at h2
  rcases Nat.le_total n l.length with h | h
  · rw [Nat.min_eq_left h] at h2
    omega
  · rw [Nat.min_eq_right h] at h2
    omega

theorem getLastD_takeLast {n : ℕ} (l : List ℚ) (d : ℚ) (hn : 0 < n) (hl : l ≠ []) :
    (takeLast n l).getLastD d = l.getLastD d := by
  have hne : takeLast n l ≠ [] := takeLast_ne_nil hn hl
  have hsplit : l.take (l.length - n) ++ takeLast n l = l :=
    List.take_append_drop _ l
  rw [List.getLastD_eq_getLast?, List.getLastD_eq_getLast?]
  conv_rhs => rw [← hsplit]
  rw [List.getLast?_append_of_ne_nil _ hne]

theorem takeLast_append_left (m : ℕ) (xs ys : List ℚ) :
    takeLast m (takeLast m xs ++ ys) = takeLast m (xs ++ ys) := by
  simp only [takeLast, List.length_append, List.length_drop]
  rw [List.drop_append_eq_append_drop, List.drop_append_eq_append_drop, List.drop_drop]
  simp only [List.length_drop]
  congr 2
  · omega
  · omega

theorem trim_eq_takeLast (vals : List ℚ) :
    (if 100 < vals.length then vals.drop (vals.length - 100) else vals) =
      takeLast 100 vals := by
  split
  · rfl
  · rw [takeLast, Nat.sub_eq_zero_of_le (by omega), List.drop_zero]

theorem histGet_nil (s : String) : histGet [] s = [] := rfl

theorem histSet_nil (s : String) (v : List ℚ) : histSet [] s v = [(s, v)] := by
  simp [histSet, List.lookup]

theorem histGet_single (s : String) (v : List ℚ) : histGet [(s, v)] s = v := by
  simp [histGet, List.lookup]

theorem histSet_single (s : String) (v w : List ℚ) : histSet [(s, v)] s w = [(s, w)] := by
  simp [histSet, List.lookup]

theorem zip_take_take (ps vs : List ℚ) (n : ℕ) :
    (ps.take n).zip (vs.take n) = (ps.zip vs).take n := by
  simp [List.zip, List.take_zipWith]

theorem getD_take (l : List ℚ) (n i : ℕ) (d : ℚ) (h : i < n) :
    (l.take n).getD i d = l.getD i d := by
  rw [List.getD_eq_getD_get?, List.getD_eq_getD_get?]
  simp only [List.get?_eq_getElem?]
  rw [List.getElem?_take_of_lt h]

theorem getLastD_take (ps : List ℚ) (k : ℕ) (d : ℚ) (h1 : 1 ≤ k) (h2 : k ≤ ps.length) :
    (ps.take k).getLastD d = ps.getD (k - 1) d := by
  obtain ⟨j, rfl⟩ : ∃ j, k = j + 1 := ⟨k - 1, by omega⟩
  have hj : j < ps.length := by omega
  rw [List.take_succ, List.getElem?_eq_getElem hj]
  simp only [Option.toList_some, Nat.add_sub_cancel]
  rw [List.getLastD_concat, List.getD_eq_getElem _ _ hj]

theorem cvdSeries_short (ts : List (ℚ × ℚ)) (h : ts.length ≤ 1) : cvdSeries ts = [] := by
  have hl := length_cvdSeries ts
  have : (cvdSeries ts).length = 0 := by omega
  exact List.length_eq_zero.1 this

/-- A from-scratch back-fill call on a fresh symbol stores exactly the
last 100 points of the full CVD series of the paired tick sequence. -/
theorem updateCVD_fresh (symbol : String) (ps vs : List ℚ) :
    histGet ((updateCVD [] symbol ps vs).1) symbol =
      takeLast 100 (cvdSeries (ps.zip vs)) := by
  by_cases h : ps.length < 2 ∨ vs.length < 2
  · rw [updateCVD, if_pos h]
    have hser : cvdSeries (ps.zip vs) = [] := by
      apply cvdSeries_short
      rw [List.length_zip]
      rcases h with h | h
      · omega
      · rcases Nat.le_total ps.length vs.length with h2 | h2
        · rw [Nat.min_eq_left h2]
          omega
        · rw [Nat.min_eq_right h2]
          omega
    rw [hser]
    rfl
  · rw [updateCVD, if_neg h]
    simp only [histGet_nil, List.isEmpty_nil, if_true]
    rw [trim_eq_takeLast, histSet_nil, histGet_single]

/-- A fresh back-fill call with at least two paired samples stores the
trimmed full series. -/
theorem updateCVD_fresh_hist (symbol : String) (ps vs : List ℚ)
    (h2 : 2 ≤ ps.length) (h2v : 2 ≤ vs.length) :
    (updateCVD [] symbol ps vs).1 =
      [(symbol, takeLast 100 (cvdSeries (ps.zip vs)))] := by
  rw [updateCVD, if_neg (by omega)]
  simp only [histGet_nil, List.isEmpty_nil, if_true]
  rw [trim_eq_takeLast, histSet_nil]

/-- An incremental call on a symbol whose stored series is the trimmed
series of the first `k` ticks appends exactly the next conceptual series
point and stores the trimmed series of the first `k + 1` ticks. -/
theorem updateCVD_append_step (symbol : String) (ps vs : List ℚ)
    (hlen : ps.length = vs.length) (k : ℕ) (hk2 : 2 ≤ k) (hk : k + 1 ≤ ps.length) :
    (updateCVD [(symbol, takeLast 100 (cvdSeries ((ps.zip vs).take k)))] symbol
        (ps.take (k + 1)) (vs.take (k + 1))).1 =
      [(symbol, takeLast 100 (cvdSeries ((ps.zip vs).take (k + 1))))] := by
  have hzip : (ps.zip vs).length = ps.length := by
    rw [List.length_zip, hlen, Nat.min_self]
  have hlentake : (ps.take (k + 1)).length = k + 1 := by
    rw [List.length_take, Nat.min_eq_left (by omega)]
  have hlenvtake : (vs.take (k + 1)).length = k + 1 := by
    rw [List.length_take, Nat.min_eq_left (by omega)]
  have hSk_len : (cvdSeries ((ps.zip vs).take k)).length = k - 1 := by
    rw [length_cvdSeries, List.length_take, Nat.min_eq_left (by omega)]
  have hSk_ne : cvdSeries ((ps.zip vs).take k) ≠ [] := by
    intro hc
    rw [hc] at hSk_len
    simp at hSk_len
    omega
  have hT_ne : takeLast 100 (cvdSeries ((ps.zip vs).take k)) ≠ [] :=
    takeLast_ne_nil (by norm_num) hSk_ne
  have hT_empty : (takeLast 100 (cvdSeries ((ps.zip vs).take k))).isEmpty = false := by
    rcases hl : takeLast 100 (cvdSeries ((ps.zip vs).take k)) with _ | ⟨a, l⟩
    · exact absurd hl hT_ne
    · rfl
  have hk_lt : k < (ps.zip vs).length := by omega
  have hkp : k < ps.length := by omega
  have hkv : k < vs.length := by omega
  have htakek_ne : (ps.zip vs).take k ≠ [] := by
    intro hc
    have h3 := congrArg List.length hc
    rw [List.length_take, Nat.min_eq_left (by omega)] at h3
    simp at h3
    omega
  have hmapfst : ((((ps.zip vs).take k)).map Prod.fst).getLastD 0 = ps.getD (k - 1) 0 := by
    rw [← zip_take_take]
    rw [List.map_fst_zip _ _ (by
      rw [List.length_take, List.length_take, Nat.min_eq_left (by omega),
        Nat.min_eq_left (by omega)])]
    exact getLastD_take ps k 0 (by omega) (by omega)
  have hconcat : cvdSeries ((ps.zip vs).take (k + 1)) =
      cvdSeries ((ps.zip vs).take k) ++
        [cvdStep ((cvdSeries ((ps.zip vs).take k)).getLastD 0) (ps.getD (k - 1) 0)
          (ps.getD k 0, vs.getD k 0)] := by
    conv_lhs => rw [List.take_succ, List.getElem?_eq_getElem hk_lt]
    simp only [Option.toList_some]
    rw [cvdSeries_concat _ _ htakek_ne, hmapfst]
    rw [List.getElem_zip, List.getD_eq_getElem _ _ hkp, List.getD_eq_getElem _ _ hkv]
  rw [updateCVD, if_neg (by rw [hlentake, hlenvtake]; omega)]
  simp only [histGet_single, hT_empty, Bool.false_eq_true, if_false]
  simp only [hlentake, hlenvtake]
  rw [getD_take ps (k + 1) (k + 1 - 2) 0 (by omega),
    getD_take ps (k + 1) (k + 1 - 1) 0 (by omega),
    getD_take vs (k + 1) (k + 1 - 1) 0 (by omega)]
  rw [getLastD_takeLast _ _ (by norm_num) hSk_ne]
  rw [trim_eq_takeLast, histSet_single]
  rw [takeLast_append_left, hconcat]
  have hidx1 : k + 1 - 2 = k - 1 := by omega
  have hidx2 : k + 1 - 1 = k := by omega
  rw [hidx1, hidx2]
  rfl

/-- Closed form of feeding the first `n` ticks one at a time: the map is
empty until two ticks have arrived, and from then on holds exactly the
trimmed CVD series of the ticks seen so far. -/
theorem feedTicks_closed (symbol : String) (ps vs : List ℚ) (hlen : ps.length = vs.length) :
    ∀ n, n ≤ ps.length →
      feedTicks [] symbol ps vs n =
        if cvdSeries ((ps.zip vs).take n) = [] then []
        else [(symbol, takeLast 100 (cvdSeries ((ps.zip vs).take n)))] := by
  intro n
  induction n with
  | zero =>
    intro _
    simp [feedTicks, cvdSeries]
  | succ k ih =>
    intro hk
    have hk' : k ≤ ps.length := by omega
    have hzip : (ps.zip vs).length = ps.length := by
      rw [List.length_zip, hlen, Nat.min_self]
    show (updateCVD (feedTicks [] symbol ps vs k) symbol
        (ps.take (k + 1)) (vs.take (k + 1))).1 = _
    rw [ih hk']
    match k, hk with
    | 0, _ =>
      have hshort : cvdSeries ((ps.zip vs).take 1) = [] := by
        apply cvdSeries_short
        rw [List.length_take]
        omega
      rw [if_pos (by simp [cvdSeries]), if_pos hshort]
      rw [updateCVD, if_pos (by left; rw [List.length_take]; omega)]
    | 1, hk =>
      have h2 : 2 ≤ ps.length := by omega
      have hS1 : cvdSeries ((ps.zip vs).take 1) = [] := by
        apply cvdSeries_short
        rw [List.length_take]
        omega
      have hS2_len : (cvdSeries ((ps.zip vs).take 2)).length = 1 := by
        rw [length_cvdSeries, List.length_take, Nat.min_eq_left (by omega)]
      have hS2_ne : cvdSeries ((ps.zip vs).take 2) ≠ [] := by
        intro hc
        rw [hc] at hS2_len
        simp at hS2_len
      rw [if_pos hS1, if_neg hS2_ne]
      rw [updateCVD_fresh_hist symbol (ps.take 2) (vs.take 2)
        (by rw [List.length_take]; omega) (by rw [List.length_take]; omega)]
      rw [zip_take_take]
    | (m + 2), hk =>
      have hSk_len : (cvdSeries ((ps.zip vs).take (m + 2))).length = m + 1 := by
        rw [length_cvdSeries, List.length_take, Nat.min_eq_left (by omega)]
        omega
      have hSk_ne : cvdSeries ((ps.zip vs).take (m + 2)) ≠ [] := by
        intro hc
        rw [hc] at hSk_len
        simp at hSk_len
      have hSk1_len : (cvdSeries ((ps.zip vs).take (m + 3))).length = m + 2 := by
        rw [length_cvdSeries, List.length_take, Nat.min_eq_left (by omega)]
        omega
      have hSk1_ne : cvdSeries ((ps.zip vs).take (m + 3)) ≠ [] := by
        intro hc
        rw [hc] at hSk1_len
        simp at hSk1_len
      rw [if_neg hSk_ne, if_neg hSk1_ne]
      exact updateCVD_append_step symbol ps vs hlen (m + 2) (by omega) (by omega)

/-- The stored series after feeding a whole paired stream tick by tick is
the trimmed full conceptual series. -/
theorem feedTicks_histGet (symbol : String) (ps vs : List ℚ)
    (hlen : ps.length = vs.length) :
    histGet (feedTicks [] symbol ps vs ps.length) symbol =
      takeLast 100 (cvdSeries (ps.zip vs)) := by
  rw [feedTicks_closed symbol ps vs hlen ps.length (le_refl _)]
  have hzip : (ps.zip vs).length = ps.length := by
    rw [List.length_zip, hlen, Nat.min_self]
  have htake : (ps.zip vs).take ps.length = ps.zip vs := by
    rw [← hzip, List.take_length]
  rw [htake]
  split
  · rename_i hnil
    rw [hnil]
    rfl
  · rw [histGet_single]

/-- C2: feeding a paired tick stream one tick at a time produces exactly
the same final per-symbol CVD series as one from-scratch back-fill over
the full stream, namely the last 100 points of the full conceptual
series. -/
theorem incremental_cvd_spec (symbol : String) (ps vs : List ℚ)
    (hlen : ps.length = vs.length) :
    histGet (feedTicks [] symbol ps vs ps.length) symbol =
      takeLast 100 (cvdSeries (ps.zip vs)) ∧
    histGet ((updateCVD [] symbol ps vs).1) symbol =
      takeLast 100 (cvdSeries (ps.zip vs)) :=
  ⟨feedTicks_histGet symbol ps vs hlen, updateCVD_fresh symbol ps vs⟩

/-- Witness for `incremental_cvd_spec` on a five-tick stream. -/
theorem incremental_cvd_spec_witness :
    histGet (feedTicks [] "s" [10, 10, 12, 11, 13]
        [100, 100, 100, 100, 100] ([10, 10, 12, 11, 13] : List ℚ).length) "s" =
      takeLast 100 (cvdSeries (([10, 10, 12, 11, 13] : List ℚ).zip
        ([100, 100, 100, 100, 100] : List ℚ))) ∧
    histGet ((updateCVD [] "s" [10, 10, 12, 11, 13] [100, 100, 100, 100, 100]).1) "s" =
      takeLast 100 (cvdSeries (([10, 10, 12, 11, 13] : List ℚ).zip
        ([100, 100, 100, 100, 100] : List ℚ))) :=
  incremental_cvd_spec "s" [10, 10, 12, 11, 13] [100, 100, 100, 100, 100] rfl

theorem getD_zip (ps vs : List ℚ) (j : ℕ) (hj : j < (ps.zip vs).length) :
    (ps.zip vs).getD j (0, 0) = (ps.getD j 0, vs.getD j 0) := by
  have hj' := hj
  rw [List.length_zip] at hj'
  have hp : j < ps.length := (lt_min_iff.1 hj').1
  have hv : j < vs.length := (lt_min_iff.1 hj').2
  rw [List.getD_eq_getElem _ _ hj, List.getElem_zip,
    List.getD_eq_getElem _ _ hp, List.getD_eq_getElem _ _ hv]

theorem cvdFrom_getD_succ (ts : List (ℚ × ℚ)) :
    ∀ (run prev : ℚ) (i : ℕ), i < ts.length →
      (run :: cvdFrom run prev ts).getD (i + 1) 0 =
        cvdStep ((run :: cvdFrom run prev ts).getD i 0)
          ((prev :: ts.map Prod.fst).getD i 0) (ts.getD i (0, 0)) := by
  induction ts with
  | nil =>
    intro run prev i hi
    simp at hi
  | cons t rest ih =>
    intro run prev i hi
    match i with
    | 0 => rfl
    | Nat.succ j =>
      have hj : j < rest.length := by simpa using hi
      have h := ih (cvdStep run prev t) t.1 j hj
      simp only [cvdFrom, List.getD_cons_succ, List.map_cons]
      exact h

/-- C6: with the implicit anchor 0 prepended, every point of the
conceptual CVD series equals the previous point plus the tick volume on an
up-tick, minus it on a down-tick, and unchanged on an equal price; and the
store holds exactly the last 100 points of that series, whether filled by
one back-fill call or tick by tick. -/
theorem cvd_delta_invariant (symbol : String) (ps vs : List ℚ)
    (hlen : ps.length = vs.length) :
    (0 :: cvdSeries (ps.zip vs)).getD 0 0 = 0 ∧
    (∀ i, i + 1 < (0 :: cvdSeries (ps.zip vs)).length →
      (0 :: cvdSeries (ps.zip vs)).getD (i + 1) 0 =
        (if ps.getD i 0 < ps.getD (i + 1) 0 then
            (0 :: cvdSeries (ps.zip vs)).getD i 0 + vs.getD (i + 1) 0
          else if ps.getD (i + 1) 0 < ps.getD i 0 then
            (0 :: cvdSeries (ps.zip vs)).getD i 0 - vs.getD (i + 1) 0
          else (0 :: cvdSeries (ps.zip vs)).getD i 0)) ∧
    histGet ((updateCVD [] symbol ps vs).1) symbol =
      takeLast 100 (cvdSeries (ps.zip vs)) ∧
    histGet (feedTicks [] symbol ps vs ps.length) symbol =
      takeLast 100 (cvdSeries (ps.zip vs)) := by
  refine ⟨rfl, ?_, updateCVD_fresh symbol ps vs, feedTicks_histGet symbol ps vs hlen⟩
  intro i hi
  match hz : ps.zip vs with
  | [] =>
    rw [hz] at hi
    simp [cvdSeries] at hi
  | t0 :: rest =>
    have hser : cvdSeries (t0 :: rest) = cvdFrom 0 t0.1 rest := rfl
    rw [hz] at hi
    rw [hser] at hi ⊢
    have hi' : i < rest.length := by
      have hL := length_cvdFrom rest 0 t0.1
      simp only [List.length_cons] at hi
      omega
    have h := cvdFrom_getD_succ rest 0 t0.1 i hi'
    rw [h]
    have hmap : (t0.1 :: rest.map Prod.fst) = ps := by
      have : (t0 :: rest).map Prod.fst = ps := by
        rw [← hz]
        exact List.map_fst_zip ps vs (by omega)
      simpa using this
    have hrest : rest.getD i (0, 0) = (ps.getD (i + 1) 0, vs.getD (i + 1) 0) := by
      have hstep : rest.getD i (0, 0) = (t0 :: rest).getD (i + 1) (0, 0) := rfl
      rw [hstep, ← hz]
      exact getD_zip ps vs (i + 1) (by rw [hz]; simp; omega)
    rw [hmap, hrest]
    simp only [cvdStep]

/-- Witness for `cvd_delta_invariant` on a five-tick stream of equal
lengths. -/
theorem cvd_delta_invariant_witness :
    ([10, 10, 12, 11, 13] : List ℚ).length =
      ([100, 100, 100, 100, 100] : List ℚ).length ∧
    (0 :: cvdSeries (([10, 10, 12, 11, 13] : List ℚ).zip
      ([100, 100, 100, 100, 100] : List ℚ))).getD 0 0 = 0 ∧
    histGet ((updateCVD [] "s" [10, 10, 12, 11, 13] [100, 100, 100, 100, 100]).1) "s" =
      takeLast 100 (cvdSeries (([10, 10, 12, 11, 13] : List ℚ).zip
        ([100, 100, 100, 100, 100] : List ℚ))) :=
  ⟨rfl, (cvd_delta_invariant "s" [10, 10, 12, 11, 13] [100, 100, 100, 100, 100] rfl).1,
   (cvd_delta_invariant "s" [10, 10, 12, 11, 13] [100, 100, 100, 100, 100] rfl).2.2.1⟩

theorem cvdFrom_const_price (p : ℚ) :
    ∀ (ts : List (ℚ × ℚ)), (∀ t ∈ ts, (t : ℚ × ℚ).1 = p) →
      ∀ run, cvdFrom run p ts = List.replicate ts.length run := by
  intro ts
  induction ts with
  | nil =>
    intro _ run
    rfl
  | cons t rest ih =>
    intro hall run
    have ht : t.1 = p := hall t (by simp)
    have hstep : cvdStep run p t = run := by
      simp [cvdStep, ht]
    simp only [cvdFrom, hstep, ht]
    rw [ih (fun s hs => hall s (by simp [hs])) run]
    simp [List.replicate_succ]

theorem mem_takeLast {α : Type} {x : α} {n : ℕ} {l : List α} (h : x ∈ takeLast n l) :
    x ∈ l :=
  List.mem_of_mem_drop h

theorem series_zero_of_const_price (p : ℚ) (n : ℕ) (vs : List ℚ) :
    ∀ x ∈ cvdSeries ((List.replicate n p).zip vs), x = 0 := by
  intro x hx
  match hz : (List.replicate n p).zip vs, hx with
  | t0 :: rest, hx =>
    have hall : ∀ t ∈ t0 :: rest, (t : ℚ × ℚ).1 = p := by
      intro t ht
      obtain ⟨a, b⟩ := t
      have hmem : (a, b) ∈ (List.replicate n p).zip vs := by
        rw [hz]
        exact ht
      exact List.eq_of_mem_replicate (List.of_mem_zip hmem).1
    have ht0 : t0.1 = p := hall t0 (by simp)
    rw [show cvdSeries (t0 :: rest) = cvdFrom 0 t0.1 rest from rfl, ht0,
      cvdFrom_const_price p rest (fun s hs => hall s (by simp [hs])) 0] at hx
    exact List.eq_of_mem_replicate hx

theorem getD_zero_of_all_zero {l : List ℚ} (h : ∀ x ∈ l, x = 0) (i : ℕ) :
    l.getD i 0 = 0 := by
  by_cases hi : i < l.length
  · rw [List.getD_eq_getElem _ _ hi]
    exact h _ (List.getElem_mem hi)
  · exact List.getD_eq_default _ _ (by omega)

theorem getLastD_zero_of_all_zero {l : List ℚ} (h : ∀ x ∈ l, x = 0) :
    l.getLastD 0 = 0 := by
  match l, h with
  | [], _ => rfl
  | a :: l2, h =>
    rw [List.getLastD_cons]
    exact h _ (List.getLastD_mem_cons l2 a)

theorem slope_zero_of_all_zero (hist : CvdHistory) (symbol : String)
    (hz : ∀ x ∈ histGet hist symbol, x = 0) :
    calculateCVDSlope hist symbol 5 = 0 := by
  have hzr : ∀ x ∈ takeLast (5 + 1) (histGet hist symbol), x = 0 :=
    fun x hx => hz x (mem_takeLast hx)
  have hY : ((List.range (takeLast (5 + 1) (histGet hist symbol)).length).map
      (fun i => (takeLast (5 + 1) (histGet hist symbol)).getD i 0)).sum = 0 := by
    apply List.sum_eq_zero
    intro x hx
    obtain ⟨i, _, rfl⟩ := List.mem_map.1 hx
    exact getD_zero_of_all_zero hzr i
  have hXY : ((List.range (takeLast (5 + 1) (histGet hist symbol)).length).map
      (fun (i : ℕ) => (i : ℚ) * (takeLast (5 + 1) (histGet hist symbol)).getD i 0)).sum = 0 := by
    apply List.sum_eq_zero
    intro x hx
    obtain ⟨i, _, rfl⟩ := List.mem_map.1 hx
    rw [getD_zero_of_all_zero hzr i, mul_zero]
  rw [calculateCVDSlope]
  split
  · rfl
  · dsimp only
    split
    · rfl
    · rw [hY, hXY]
      simp

theorem trend_neutral_of_all_zero (hist : CvdHistory) (symbol : String)
    (hz : ∀ x ∈ histGet hist symbol, x = 0) :
    calculateCVDTrend hist symbol 10 = CVDTrend.neutral := by
  have hzr : ∀ x ∈ takeLast 10 (histGet hist symbol), x = 0 :=
    fun x hx => hz x (mem_takeLast hx)
  have hfirst : (takeLast 10 (histGet hist symbol)).getD 0 0 = 0 :=
    getD_zero_of_all_zero hzr 0
  have hlast : (takeLast 10 (histGet hist symbol)).getLastD 0 = 0 :=
    getLastD_zero_of_all_zero hzr
  rw [calculateCVDTrend]
  split
  · rfl
  · dsimp only
    rw [hfirst, hlast]
    norm_num

/-- C9: feeding ticks whose prices are all equal leaves the stored CVD
series identically zero (hence constant), makes the regression slope over
the last six points exactly 0, and classifies the trend as neutral. -/
theorem flat_price_spec (symbol : String) (p : ℚ) (vs : List ℚ) :
    (∀ x ∈ histGet (feedTicks [] symbol (List.replicate vs.length p) vs vs.length)
        symbol, x = 0) ∧
    calculateCVDSlope (feedTicks [] symbol (List.replicate vs.length p) vs vs.length)
      symbol 5 = 0 ∧
    calculateCVDTrend (feedTicks [] symbol (List.replicate vs.length p) vs vs.length)
      symbol 10 = CVDTrend.neutral := by
  have h1 : histGet (feedTicks [] symbol (List.replicate vs.length p) vs vs.length)
      symbol = takeLast 100 (cvdSeries ((List.replicate vs.length p).zip vs)) := by
    have h := feedTicks_histGet symbol (List.replicate vs.length p) vs (by simp)
    rwa [List.length_replicate] at h
  have hz : ∀ x ∈ histGet (feedTicks [] symbol (List.replicate vs.length p) vs
      vs.length) symbol, x = 0 := by
    intro x hx
    rw [h1] at hx
    exact series_zero_of_const_price p vs.length vs x (mem_takeLast hx)
  exact ⟨hz, slope_zero_of_all_zero _ _ hz, trend_neutral_of_all_zero _ _ hz⟩

/-- Witness for `flat_price_spec` on seven equal-price ticks. -/
theorem flat_price_spec_witness :
    calculateCVDSlope (feedTicks [] "s"
        (List.replicate ([7, 7, 7, 7, 7, 7, 7] : List ℚ).length 3)
        [7, 7, 7, 7, 7, 7, 7] ([7, 7, 7, 7, 7, 7, 7] : List ℚ).length) "s" 5 = 0 ∧
    calculateCVDTrend (feedTicks [] "s"
        (List.replicate ([7, 7, 7, 7, 7, 7, 7] : List ℚ).length 3)
        [7, 7, 7, 7, 7, 7, 7] ([7, 7, 7, 7, 7, 7, 7] : List ℚ).length) "s" 10 =
      CVDTrend.neutral :=
  ⟨(flat_price_spec "s" 3 [7, 7, 7, 7, 7, 7, 7]).2.1,
   (flat_price_spec "s" 3 [7, 7, 7, 7, 7, 7, 7]).2.2⟩
